import Mathlib

/-!
Verification of the django-diffable change tracker.

The repository provides a mixin (`DiffableModel`) that snapshots a model
instance's field values at load time, reports field-level diffs on demand,
and — when the `DIFFABLE_MODEL_SAVE_ONLY_CHANGES` configuration flag is on —
restricts each table-level UPDATE to the changed columns, skipping tables
with no changed column entirely.

The tracker itself (`diffable/models.py`) is not among the available source
files; only its test suite (`testproject/tests.py`) and the test models
(`testproject/testapp/models.py`) are.  The definitions below are therefore
modelled from the specification, with concrete behaviours (the shallow-copy
error message, query counts, diff contents) cross-checked against the test
suite.
-/

namespace Diffable

/-- Field values, abstracted as natural numbers (the tracker compares values
only for equality). -/
abbrev Value := Nat

/-- Field names. -/
abbrev FieldName := String

/-- Modelled from the spec: a snapshot entry is either the Deferred Marker
(the `DEFERRED` sentinel, for a field not loaded at snapshot time) or a
recorded value; the sentinel is distinct from every real value. -/
inductive SnapVal where
  | DEFERRED : SnapVal
  | loaded : Value → SnapVal
deriving DecidableEq

/-- Modelled from the spec: the per-field state kept by the Change Tracker
(`diffable/models.py`, missing from the sources).  `current` is the field's
in-memory value, `none` while the field is deferred and not yet materialized;
`snap` is its Instance Snapshot entry. -/
structure FieldState where
  name : FieldName
  current : Option Value
  snap : SnapVal
deriving DecidableEq

/-- Modelled from the spec: a field counts as changed iff it has a
materialized current value differing from its snapshot entry.  A field whose
snapshot entry is still the Deferred Marker counts as changed once a value is
assigned to it; an untouched deferred field does not. -/
def FieldState.changed (f : FieldState) : Bool :=
  match f.current with
  | none => false
  | some v => decide (f.snap ≠ SnapVal.loaded v)

/-- Modelled from the spec: the Change Tracker state of one model instance, a
list of per-field states. -/
structure DiffableState where
  fields : List FieldState
deriving DecidableEq

/-- Modelled from the spec: `has_changed` — true iff any field's current
value differs from its snapshot. -/
def DiffableState.hasChanged (s : DiffableState) : Bool :=
  s.fields.any FieldState.changed

/-- Modelled from the spec: `changed_fields` — the names of the fields
currently differing from the snapshot. -/
def DiffableState.changedFields (s : DiffableState) : List FieldName :=
  (s.fields.filter FieldState.changed).map FieldState.name

/-- Modelled from the spec: the Diff Entry contributed by one field — `none`
when the field is unchanged, otherwise its name paired with
(old value, new value), the old value being the snapshot entry. -/
def FieldState.diffEntry (f : FieldState) : Option (FieldName × SnapVal × Value) :=
  match f.current with
  | none => none
  | some v => if f.snap = SnapVal.loaded v then none else some (f.name, (f.snap, v))

/-- Modelled from the spec: `diff` — the mapping (as an association list in
field order) from changed field name to its (old, new) pair. -/
def DiffableState.diff (s : DiffableState) : List (FieldName × SnapVal × Value) :=
  s.fields.filterMap FieldState.diffEntry

/-- Modelled from the spec: `get_field_diff(name)` — the single-field diff
pair, or `none` if the field is unchanged. -/
def DiffableState.getFieldDiff (s : DiffableState) (n : FieldName) :
    Option (SnapVal × Value) :=
  (s.diff.find? (fun p => p.1 == n)).map (fun p => p.2)

/-- Modelled from the spec: assigning a value to a field updates its current
value and leaves the snapshot untouched (attribute-write interception). -/
def DiffableState.setField (s : DiffableState) (n : FieldName) (v : Value) :
    DiffableState :=
  ⟨s.fields.map (fun f => if f.name = n then ⟨f.name, some v, f.snap⟩ else f)⟩

/-- Modelled from the spec: the effect of lazy deferred-field resolution on
one field — when the field is the one being resolved and is still
unmaterialized, its now-known value is captured both as the current value and
into the snapshot, so that resolution itself is not a change. -/
def FieldState.resolveField (n : FieldName) (v : Value) (f : FieldState) : FieldState :=
  if f.name = n ∧ f.current = none then ⟨f.name, some v, SnapVal.loaded v⟩ else f

/-- Modelled from the spec: resolving (first-accessing) a deferred field with
the value `v` the collaborator loaded for it. -/
def DiffableState.resolve (s : DiffableState) (n : FieldName) (v : Value) :
    DiffableState :=
  ⟨s.fields.map (FieldState.resolveField n v)⟩

/-- Modelled from the spec: snapshot reset of one field after a save (or for
a deep copy): a materialized current value becomes the new snapshot entry; a
still-deferred field keeps the Deferred Marker. -/
def FieldState.reset (f : FieldState) : FieldState :=
  match f.current with
  | none => f
  | some v => ⟨f.name, some v, SnapVal.loaded v⟩

/-- Modelled from the spec: resetting the whole snapshot to the current field
values. -/
def DiffableState.resetSnapshot (s : DiffableState) : DiffableState :=
  ⟨s.fields.map FieldState.reset⟩

/-- Modelled from the spec: the static shape of a diffable model class — the
field names of each table level (parent tables first, one entry per table in
multi-table inheritance) and the names of its auto-updated (`auto_now`)
timestamp fields. -/
structure ModelMeta where
  tables : List (List FieldName)
  autoNow : List FieldName

/-- Modelled from the spec: a table level is written iff one of its own
columns is currently changed. -/
def tableHasChange (s : DiffableState) (tbl : List FieldName) : Bool :=
  tbl.any (fun n => decide (n ∈ s.changedFields))

/-- Modelled from the spec: saving an already-persisted instance at time
`now`.  The auto-updated timestamp fields are first assigned `now` (an
attribute write seen by the tracker, as in the test suite where saving an
otherwise unchanged instance with an `auto_now` field still issues one
UPDATE).  With the `SAVE_ONLY_CHANGES` flag on, each table level is written
iff it has a changed column, so an instance with no changed column anywhere
is not written at all; with the flag off every table level is written.
Afterwards the snapshot is reset to the current values.  Returns the number
of write operations issued and the post-save tracker state. -/
def save (meta : ModelMeta) (saveOnlyChanges : Bool) (s : DiffableState)
    (now : Value) : Nat × DiffableState :=
  let s1 := meta.autoNow.foldl (fun st a => st.setField a now) s
  let writes :=
    if saveOnlyChanges then meta.tables.countP (fun t => tableHasChange s1 t)
    else meta.tables.length
  (writes, s1.resetSnapshot)

/-- Modelled from the spec: a live model instance — a process-wide identity
plus its tracker state. -/
structure ModelInstance where
  id : Nat
  st : DiffableState
deriving DecidableEq

/-- Modelled from the spec: the process-wide Lock Registry (`_diff_locks`),
mapping instance identity to an in-progress flag, together with the identity
allocator. -/
structure World where
  nextId : Nat
  locks : List (Nat × Bool)
deriving DecidableEq

/-- Modelled from the spec: instantiating a model instance registers its
identity in the Lock Registry. -/
def createInstance (w : World) (st : DiffableState) : ModelInstance × World :=
  (⟨w.nextId, st⟩, ⟨w.nextId + 1, (w.nextId, false) :: w.locks⟩)

/-- Modelled from the spec: destroying an instance removes every entry for
its identity from the Lock Registry. -/
def deleteInstance (w : World) (i : ModelInstance) : World :=
  ⟨w.nextId, w.locks.filter (fun p => decide (p.1 ≠ i.id))⟩

/-- Modelled from the spec: deep copy — a fresh instance (fresh identity,
registered in the Lock Registry) carrying the original's current field
values, with its snapshot reset to those copied values so its diff is
empty. -/
def deepcopy (w : World) (i : ModelInstance) : ModelInstance × World :=
  createInstance w i.st.resetSnapshot

/-- Exact error message raised on a shallow-copy attempt, as asserted by
`test_copying_is_disabled`. -/
def shallowCopyMessage : String :=
  "Copying DiffableModel breaks tracking changes of its field values. Use deepcopy instead."

/-- Copy protocol selector: Python `copy.copy` vs `copy.deepcopy`. -/
inductive CopyKind where
  | shallow : CopyKind
  | deep : CopyKind

/-- Modelled from the spec: attempting to copy an instance.  A shallow copy
fails immediately with the descriptive error, leaving the world and the
original instance untouched; a deep copy succeeds.  The first component is
the (world, original) pair after the attempt. -/
def attemptCopy (k : CopyKind) (w : World) (i : ModelInstance) :
    (World × ModelInstance) × Except String (ModelInstance × World) :=
  match k with
  | CopyKind.shallow => ((w, i), Except.error shallowCopyMessage)
  | CopyKind.deep => ((w, i), Except.ok (deepcopy w i))

/-- Byte-stream encoding of a current-value cell. -/
def encodeOptVal : Option Value → List Nat
  | none => [0]
  | some v => [1, v]

/-- Byte-stream encoding of a snapshot entry. -/
def encodeSnap : SnapVal → List Nat
  | SnapVal.DEFERRED => [0]
  | SnapVal.loaded v => [1, v]

/-- Byte-stream encoding of one field state: name length, the name's
characters, the current value, the snapshot entry. -/
def encodeField (f : FieldState) : List Nat :=
  f.name.length :: (f.name.data.map Char.toNat ++ encodeOptVal f.current ++ encodeSnap f.snap)

/-- Modelled from the spec: serializing an instance's tracker state to a
byte stream, field values and snapshot included (the pickling side of the
transparent byte-stream round trip). -/
def pickleDumps (s : DiffableState) : List Nat :=
  s.fields.length :: (s.fields.map encodeField).flatten

/-- Decoder for a run of characters of known length. -/
def decodeChars : Nat → List Nat → Option (List Char × List Nat)
  | 0, rest => some ([], rest)
  | _ + 1, [] => none
  | n + 1, c :: rest =>
    match decodeChars n rest with
    | none => none
    | some (cs, r) => some (Char.ofNat c :: cs, r)

/-- Decoder for a current-value cell. -/
def decodeOptVal : List Nat → Option (Option Value × List Nat)
  | 0 :: rest => some (none, rest)
  | 1 :: v :: rest => some (some v, rest)
  | _ => none

/-- Decoder for a snapshot entry. -/
def decodeSnap : List Nat → Option (SnapVal × List Nat)
  | 0 :: rest => some (SnapVal.DEFERRED, rest)
  | 1 :: v :: rest => some (SnapVal.loaded v, rest)
  | _ => none

/-- Decoder for one field state. -/
def decodeField : List Nat → Option (FieldState × List Nat)
  | [] => none
  | n :: rest =>
    match decodeChars n rest with
    | none => none
    | some (cs, r1) =>
      match decodeOptVal r1 with
      | none => none
      | some (c, r2) =>
        match decodeSnap r2 with
        | none => none
        | some (p, r3) => some (⟨⟨cs⟩, c, p⟩, r3)

/-- Decoder for a run of field states of known count. -/
def decodeFields : Nat → List Nat → Option (List FieldState × List Nat)
  | 0, rest => some ([], rest)
  | n + 1, l =>
    match decodeField l with
    | none => none
    | some (f, r1) =>
      match decodeFields n r1 with
      | none => none
      | some (fs, r2) => some (f :: fs, r2)

/-- Modelled from the spec: deserializing a byte stream back into a tracker
state (the unpickling side of the round trip); fails on a malformed
stream. -/
def pickleLoads (l : List Nat) : Option DiffableState :=
  match l with
  | [] => none
  | n :: rest =>
    match decodeFields n rest with
    | none => none
    | some (fs, r) => if r = [] then some ⟨fs⟩ else none

/-- Embedding of `testapp.models.Author`: one table with the primary key and
the two name fields; no auto-updated fields. -/
def authorMeta : ModelMeta := ⟨[["id", "first_name", "last_name"]], []⟩

/-- Embedding of `testapp.models.Book`: one table; `updated_at` has
`auto_now=True` (while `created_at` has `auto_now_add=True`, which is set
only on insert and hence is not auto-updated on save). -/
def bookMeta : ModelMeta :=
  ⟨[["id", "title", "author", "publication_date", "created_at", "updated_at"]],
   ["updated_at"]⟩

/-- Embedding of `testapp.models.OldBook`: multi-table inheritance — the
`Book` parent table plus a child table carrying the `age` field. -/
def oldBookMeta : ModelMeta :=
  ⟨[["id", "title", "author", "publication_date", "created_at", "updated_at"],
    ["age"]],
   ["updated_at"]⟩

/-- A fully loaded, unmodified `Author` instance state. -/
def authorLoaded : DiffableState :=
  ⟨[⟨"id", some 1, SnapVal.loaded 1⟩,
    ⟨"first_name", some 10, SnapVal.loaded 10⟩,
    ⟨"last_name", some 11, SnapVal.loaded 11⟩]⟩

/-- A fully loaded, unmodified `Book` instance state. -/
def bookLoaded : DiffableState :=
  ⟨[⟨"id", some 2, SnapVal.loaded 2⟩,
    ⟨"title", some 20, SnapVal.loaded 20⟩,
    ⟨"author", some 1, SnapVal.loaded 1⟩,
    ⟨"publication_date", some 30, SnapVal.loaded 30⟩,
    ⟨"created_at", some 40, SnapVal.loaded 40⟩,
    ⟨"updated_at", some 50, SnapVal.loaded 50⟩]⟩

/-- A fully loaded, unmodified `OldBook` instance state. -/
def oldBookLoaded : DiffableState :=
  ⟨bookLoaded.fields ++ [⟨"age", some 12, SnapVal.loaded 12⟩]⟩

/-- A `Book` loaded with `.only('id')`: every non-pk field deferred, as in
`test_detecting_changes__with_deferred`. -/
def bookOnlyId : DiffableState :=
  ⟨[⟨"id", some 2, SnapVal.loaded 2⟩,
    ⟨"title", none, SnapVal.DEFERRED⟩,
    ⟨"author", none, SnapVal.DEFERRED⟩,
    ⟨"publication_date", none, SnapVal.DEFERRED⟩,
    ⟨"created_at", none, SnapVal.DEFERRED⟩,
    ⟨"updated_at", none, SnapVal.DEFERRED⟩]⟩

/-- A loaded `Book` whose `title` has been reassigned since load. -/
def bookChangedTitle : DiffableState := bookLoaded.setField "title" 21

/-- A hypothetical multi-table-inherited diffable model with no auto-updated
fields anywhere: a parent table carrying `title` and a child table carrying
`age`. -/
def plainMtiMeta : ModelMeta := ⟨[["title"], ["age"]], []⟩

/-- An instance of `plainMtiMeta` in which only the child-table field `age`
has been modified since load. -/
def plainMtiChildChanged : DiffableState :=
  ⟨[⟨"title", some 1, SnapVal.loaded 1⟩, ⟨"age", some 25, SnapVal.loaded 12⟩]⟩

theorem FieldState.changed_iff (f : FieldState) :
    f.changed = true ↔ ∃ v, f.current = some v ∧ f.snap ≠ SnapVal.loaded v := by
  cases f with
  | mk n c p => cases c <;> simp [FieldState.changed]

theorem FieldState.diffEntry_eq_some_iff (f : FieldState) (e : FieldName × SnapVal × Value) :
    f.diffEntry = some e ↔
      e.1 = f.name ∧ e.2.1 = f.snap ∧ f.current = some e.2.2 ∧
        f.snap ≠ SnapVal.loaded e.2.2 := by
  obtain ⟨n, c, p⟩ := f
  obtain ⟨n2, old, new⟩ := e
  cases c with
  | none => simp [FieldState.diffEntry]
  | some v =>
    by_cases h : p = SnapVal.loaded v
    · simp only [FieldState.diffEntry, if_pos h]
      simp only [h]
      constructor
      · intro h2; cases h2
      · rintro ⟨-, -, h3, h4⟩
        cases h3
        exact absurd rfl h4
    · simp only [FieldState.diffEntry, if_neg h, Option.some.injEq, Prod.mk.injEq]
      constructor
      · rintro ⟨h1, h2, h3⟩
        subst h1; subst h2; subst h3
        exact ⟨rfl, rfl, rfl, h⟩
      · rintro ⟨h1, h2, h3, -⟩
        cases h3
        exact ⟨h1.symm, h2.symm, rfl⟩

theorem DiffableState.mem_changedFields (s : DiffableState) (x : FieldName) :
    x ∈ s.changedFields ↔ ∃ f, f ∈ s.fields ∧ f.name = x ∧ f.changed = true := by
  simp only [DiffableState.changedFields, List.mem_map, List.mem_filter]
  constructor
  · rintro ⟨f, ⟨hf, hc⟩, hn⟩
    exact ⟨f, hf, hn, hc⟩
  · rintro ⟨f, hf, hn, hc⟩
    exact ⟨f, ⟨hf, hc⟩, hn⟩

theorem DiffableState.diff_keys (s : DiffableState) :
    s.diff.map Prod.fst = s.changedFields := by
  obtain ⟨l⟩ := s
  simp only [DiffableState.diff, DiffableState.changedFields]
  induction l with
  | nil => rfl
  | cons f t ih =>
    obtain ⟨n, c, p⟩ := f
    cases c with
    | none =>
      simpa [List.filterMap_cons, List.filter_cons, FieldState.diffEntry,
        FieldState.changed] using ih
    | some v =>
      by_cases h : p = SnapVal.loaded v
      · simpa [List.filterMap_cons, List.filter_cons, FieldState.diffEntry,
          FieldState.changed, h] using ih
      · simpa [List.filterMap_cons, List.filter_cons, FieldState.diffEntry,
          FieldState.changed, h] using ih

theorem DiffableState.hasChanged_false_iff (s : DiffableState) :
    s.hasChanged = false ↔ ∀ f ∈ s.fields, f.changed = false := by
  simp [DiffableState.hasChanged, List.any_eq_false]

theorem DiffableState.hasChanged_iff_changedFields_ne_nil (s : DiffableState) :
    s.hasChanged = true ↔ s.changedFields ≠ [] := by
  simp only [DiffableState.hasChanged, DiffableState.changedFields, List.any_eq_true,
    ne_eq, List.map_eq_nil_iff, List.filter_eq_nil_iff, not_forall]
  constructor
  · rintro ⟨f, hf, hc⟩
    exact ⟨f, hf, by simp [hc]⟩
  · rintro ⟨f, hf, hc⟩
    exact ⟨f, hf, by simpa using hc⟩

theorem FieldState.name_resolveField (n : FieldName) (v : Value) (f : FieldState) :
    (FieldState.resolveField n v f).name = f.name := by
  unfold FieldState.resolveField
  split <;> rfl

theorem FieldState.changed_resolveField (n : FieldName) (v : Value) (f : FieldState) :
    (FieldState.resolveField n v f).changed = f.changed := by
  obtain ⟨m, c, p⟩ := f
  unfold FieldState.resolveField
  split
  · next h =>
      obtain ⟨-, h2⟩ := h
      simp only at h2
      subst h2
      simp [FieldState.changed]
  · rfl

theorem FieldState.diffEntry_resolveField (n : FieldName) (v : Value) (f : FieldState) :
    (FieldState.resolveField n v f).diffEntry = f.diffEntry := by
  obtain ⟨m, c, p⟩ := f
  unfold FieldState.resolveField
  split
  · next h =>
      obtain ⟨-, h2⟩ := h
      simp only at h2
      subst h2
      simp [FieldState.diffEntry]
  · rfl

theorem DiffableState.diff_resolve (s : DiffableState) (n : FieldName) (v : Value) :
    (s.resolve n v).diff = s.diff := by
  obtain ⟨l⟩ := s
  simp only [DiffableState.resolve, DiffableState.diff]
  induction l with
  | nil => rfl
  | cons f t ih =>
    simp [List.filterMap_cons, FieldState.diffEntry_resolveField, ih]

theorem DiffableState.changedFields_resolve (s : DiffableState) (n : FieldName) (v : Value) :
    (s.resolve n v).changedFields = s.changedFields := by
  obtain ⟨l⟩ := s
  simp only [DiffableState.resolve, DiffableState.changedFields]
  induction l with
  | nil => rfl
  | cons f t ih =>
    by_cases h : f.changed
    · simpa [List.filter_cons, FieldState.changed_resolveField, h,
        FieldState.name_resolveField] using ih
    · simpa [List.filter_cons, FieldState.changed_resolveField,
        Bool.eq_false_iff.mpr h] using ih

theorem DiffableState.hasChanged_resolve (s : DiffableState) (n : FieldName) (v : Value) :
    (s.resolve n v).hasChanged = s.hasChanged := by
  obtain ⟨l⟩ := s
  simp only [DiffableState.resolve, DiffableState.hasChanged]
  induction l with
  | nil => rfl
  | cons f t ih =>
    simp [List.any_cons, FieldState.changed_resolveField, ih]

theorem FieldState.diffEntry_reset (f : FieldState) :
    f.reset.diffEntry = none := by
  obtain ⟨n, c, p⟩ := f
  cases c <;> simp [FieldState.reset, FieldState.diffEntry]

theorem FieldState.name_reset (f : FieldState) : f.reset.name = f.name := by
  obtain ⟨n, c, p⟩ := f
  cases c <;> rfl

theorem FieldState.current_reset (f : FieldState) : f.reset.current = f.current := by
  obtain ⟨n, c, p⟩ := f
  cases c <;> rfl

theorem DiffableState.diff_resetSnapshot (s : DiffableState) :
    s.resetSnapshot.diff = [] := by
  obtain ⟨l⟩ := s
  simp only [DiffableState.resetSnapshot, DiffableState.diff]
  induction l with
  | nil => rfl
  | cons f t ih =>
    simp [List.filterMap_cons, FieldState.diffEntry_reset, ih]

theorem DiffableState.mem_changedFields_setField (s : DiffableState) (a : FieldName)
    (v : Value) (x : FieldName) :
    x ∈ (s.setField a v).changedFields ↔
      ((x = a ∧ ∃ f, f ∈ s.fields ∧ f.name = a ∧ f.snap ≠ SnapVal.loaded v) ∨
       (x ≠ a ∧ x ∈ s.changedFields)) := by
  rw [DiffableState.mem_changedFields, DiffableState.mem_changedFields]
  simp only [DiffableState.setField, List.mem_map]
  constructor
  · rintro ⟨f1, ⟨f, hf, rfl⟩, hn, hc⟩
    by_cases h : f.name = a
    · rw [if_pos h] at hn hc
      simp only at hn hc
      rw [FieldState.changed_iff] at hc
      obtain ⟨w, hw1, hw2⟩ := hc
      simp only [Option.some.injEq] at hw1
      subst hw1
      exact Or.inl ⟨hn ▸ h, f, hf, h, hw2⟩
    · rw [if_neg h] at hn hc
      exact Or.inr ⟨hn ▸ h, f, hf, hn, hc⟩
  · rintro (⟨rfl, f, hf, hfa, hsnap⟩ | ⟨hx, f, hf, hn, hc⟩)
    · refine ⟨⟨f.name, some v, f.snap⟩, ⟨f, hf, by rw [if_pos hfa]⟩, hfa, ?_⟩
      rw [FieldState.changed_iff]
      exact ⟨v, rfl, hsnap⟩
    · refine ⟨f, ⟨f, hf, ?_⟩, hn, hc⟩
      rw [if_neg]
      rw [hn]
      exact hx

theorem DiffableState.mem_fields_setField (s : DiffableState) (a : FieldName)
    (v : Value) (f1 : FieldState) (h : f1 ∈ (s.setField a v).fields) :
    ∃ f, f ∈ s.fields ∧ f1 = (if f.name = a then ⟨f.name, some v, f.snap⟩ else f) := by
  simp only [DiffableState.setField, List.mem_map] at h
  obtain ⟨f, hf, h2⟩ := h
  exact ⟨f, hf, h2.symm⟩

theorem save_fst_of_flag_on (meta : ModelMeta) (s : DiffableState) (now : Value) :
    (save meta true s now).1 =
      meta.tables.countP
        (fun t => tableHasChange (meta.autoNow.foldl (fun st a => st.setField a now) s) t) :=
  rfl

theorem tableHasChange_iff (s : DiffableState) (tbl : List FieldName) :
    tableHasChange s tbl = true ↔ ∃ n ∈ tbl, n ∈ s.changedFields := by
  simp [tableHasChange, List.any_eq_true]

theorem save_snd (meta : ModelMeta) (cfg : Bool) (s : DiffableState) (now : Value) :
    (save meta cfg s now).2 =
      (meta.autoNow.foldl (fun st a => st.setField a now) s).resetSnapshot :=
  rfl

theorem decodeChars_encode (cs : List Char) (rest : List Nat) :
    decodeChars cs.length (cs.map Char.toNat ++ rest) = some (cs, rest) := by
  induction cs with
  | nil => rfl
  | cons c t ih =>
    simp [decodeChars, ih, Char.ofNat_toNat]

theorem decodeOptVal_encode (c : Option Value) (rest : List Nat) :
    decodeOptVal (encodeOptVal c ++ rest) = some (c, rest) := by
  cases c <;> rfl

theorem decodeSnap_encode (p : SnapVal) (rest : List Nat) :
    decodeSnap (encodeSnap p ++ rest) = some (p, rest) := by
  cases p <;> rfl

theorem decodeField_encode (f : FieldState) (rest : List Nat) :
    decodeField (encodeField f ++ rest) = some (f, rest) := by
  obtain ⟨n, c, p⟩ := f
  obtain ⟨cs⟩ := n
  simp only [encodeField, List.cons_append, List.append_assoc, decodeField,
    String.length]
  rw [decodeChars_encode]
  dsimp only
  rw [decodeOptVal_encode]
  dsimp only
  rw [decodeSnap_encode]

theorem decodeFields_encode (fs : List FieldState) (rest : List Nat) :
    decodeFields fs.length ((fs.map encodeField).flatten ++ rest) = some (fs, rest) := by
  induction fs generalizing rest with
  | nil => rfl
  | cons f t ih =>
    simp only [List.map_cons, List.flatten_cons, List.length_cons, List.append_assoc,
      decodeFields]
    rw [decodeField_encode]
    dsimp only
    rw [ih]

theorem pickle_roundtrip (s : DiffableState) :
    pickleLoads (pickleDumps s) = some s := by
  obtain ⟨l⟩ := s
  simp only [pickleDumps, pickleLoads]
  have h := decodeFields_encode l []
  rw [List.append_nil] at h
  rw [h]
  simp

/-- Claim C2: for every instance, `diff` is a mapping whose keys are exactly
the changed fields, each mapped to the pair (old value, new value) taken
from the snapshot and the current value, and the old value is the Deferred
Marker for any changed field that had not been loaded at snapshot time. -/
theorem diffable_c2_diff_shape (s : DiffableState) :
    s.diff.map Prod.fst = s.changedFields ∧
      ∀ e ∈ s.diff, ∃ f, f ∈ s.fields ∧ f.name = e.1 ∧ f.changed = true ∧
        e.2.1 = f.snap ∧ f.current = some e.2.2 ∧
        (f.snap = SnapVal.DEFERRED → e.2.1 = SnapVal.DEFERRED) := by
  refine ⟨DiffableState.diff_keys s, ?_⟩
  intro e he
  simp only [DiffableState.diff, List.mem_filterMap] at he
  obtain ⟨f, hf, hfe⟩ := he
  rw [FieldState.diffEntry_eq_some_iff] at hfe
  obtain ⟨h1, h2, h3, h4⟩ := hfe
  refine ⟨f, hf, h1.symm, ?_, h2, h3, fun hd => by rw [h2, hd]⟩
  rw [FieldState.changed_iff]
  exact ⟨e.2.2, h3, h4⟩

/-- Claim C9: for every instance, `has_changed` is true iff some field's
current value differs from its snapshot entry (an untouched deferred field
counting as unchanged); equivalently `has_changed` holds exactly when
`changed_fields` is non-empty, and `changed_fields` equals the key list of
`diff`. -/
theorem diffable_c9_has_changed_iff (s : DiffableState) :
    (s.hasChanged = true ↔
       ∃ f ∈ s.fields, ∃ v, f.current = some v ∧ f.snap ≠ SnapVal.loaded v) ∧
      (s.hasChanged = true ↔ s.changedFields ≠ []) ∧
      s.changedFields = s.diff.map Prod.fst := by
  refine ⟨?_, DiffableState.hasChanged_iff_changedFields_ne_nil s,
    (DiffableState.diff_keys s).symm⟩
  simp only [DiffableState.hasChanged, List.any_eq_true]
  constructor
  · rintro ⟨f, hf, hc⟩
    rw [FieldState.changed_iff] at hc
    exact ⟨f, hf, hc⟩
  · rintro ⟨f, hf, hc⟩
    exact ⟨f, hf, (FieldState.changed_iff f).mpr hc⟩

/-- Claim C3: resolving (first-accessing) a deferred field captures its
value into the snapshot without being treated as a change: `has_changed`,
`changed_fields` and `diff` are unchanged by the resolution, the resolved
field does not appear in `changed_fields`, and its value is captured both as
the current value and into the snapshot. -/
theorem diffable_c3_resolve_not_a_change (s : DiffableState) (n : FieldName) (v : Value)
    (hdef : ∀ f ∈ s.fields, f.name = n → f.current = none) :
    (s.resolve n v).hasChanged = s.hasChanged ∧
      (s.resolve n v).changedFields = s.changedFields ∧
      (s.resolve n v).diff = s.diff ∧
      n ∉ (s.resolve n v).changedFields ∧
      ∀ f1 ∈ (s.resolve n v).fields, f1.name = n →
        f1.current = some v ∧ f1.snap = SnapVal.loaded v := by
  refine ⟨DiffableState.hasChanged_resolve s n v, DiffableState.changedFields_resolve s n v,
    DiffableState.diff_resolve s n v, ?_, ?_⟩
  · rw [DiffableState.changedFields_resolve, DiffableState.mem_changedFields]
    rintro ⟨f, hf, hname, hc⟩
    rw [FieldState.changed_iff] at hc
    obtain ⟨w, hw, -⟩ := hc
    rw [hdef f hf hname] at hw
    cases hw
  · intro f1 hf1 hname
    simp only [DiffableState.resolve, List.mem_map] at hf1
    obtain ⟨f, hf, rfl⟩ := hf1
    unfold FieldState.resolveField at hname ⊢
    by_cases h : f.name = n ∧ f.current = none
    · rw [if_pos h]
      exact ⟨rfl, rfl⟩
    · rw [if_neg h] at hname ⊢
      exact absurd ⟨hname, hdef f hf hname⟩ h

/-- Claim C3 witness: resolving the deferred `title` field of a Book loaded
with only its primary key leaves it unchanged-looking. -/
theorem diffable_c3_witness :
    (∀ f ∈ bookOnlyId.fields, f.name = "title" → f.current = none) ∧
      ((bookOnlyId.resolve "title" 20).hasChanged = bookOnlyId.hasChanged ∧
        (bookOnlyId.resolve "title" 20).changedFields = bookOnlyId.changedFields ∧
        (bookOnlyId.resolve "title" 20).diff = bookOnlyId.diff ∧
        "title" ∉ (bookOnlyId.resolve "title" 20).changedFields ∧
        ∀ f1 ∈ (bookOnlyId.resolve "title" 20).fields, f1.name = "title" →
          f1.current = some 20 ∧ f1.snap = SnapVal.loaded 20) :=
  ⟨by decide, diffable_c3_resolve_not_a_change bookOnlyId "title" 20 (by decide)⟩

/-- Claim C4: a shallow-copy attempt fails immediately with the descriptive
error message (the one asserted by `test_copying_is_disabled`, which
instructs the caller to use deepcopy instead), and neither the world nor the
original instance are modified by the failed attempt. -/
theorem diffable_c4_shallow_copy_fails (w : World) (i : ModelInstance) :
    (attemptCopy CopyKind.shallow w i).2 = Except.error shallowCopyMessage ∧
      (attemptCopy CopyKind.shallow w i).1 = (w, i) ∧
      shallowCopyMessage =
        "Copying DiffableModel breaks tracking changes of its field values. Use deepcopy instead." :=
  ⟨rfl, rfl, rfl⟩

/-- Claim C8: instantiating a model instance registers its identity in the
process-wide Lock Registry, and destroying an instance removes every entry
for its identity from the registry. -/
theorem diffable_c8_lock_registry (w : World) (st : DiffableState) (i : ModelInstance) :
    ((createInstance w st).2.locks.any
        (fun p => p.1 == (createInstance w st).1.id)) = true ∧
      ((deleteInstance w i).locks.all (fun p => decide (p.1 ≠ i.id))) = true := by
  constructor
  · simp [createInstance]
  · simp only [deleteInstance, List.all_eq_true]
    intro p hp
    exact (List.mem_filter.mp hp).2

/-- Claim C1 counterexample: the claim fails as stated — a fully loaded,
unmodified Book instance has no field mutated since load, yet saving it with
the flag on issues one write, not zero, because its model declares the
auto-updated `updated_at` field (exactly what
`test_saving__unchanged_model_with_auto_now__save_only_changes_on`
asserts with `assertNumQueries(1)`). -/
theorem diffable_c1_counterexample :
    bookLoaded.hasChanged = false ∧ (save bookMeta true bookLoaded 99).1 ≠ 0 := by
  decide

/-- Claim C1 (amended): for every instance of a diffable model that declares
no auto-updated (`auto_now`) field, with `SAVE_ONLY_CHANGES` enabled and no
field mutated since load, `save()` issues zero write operations. -/
theorem diffable_c1_amended_no_auto_now_zero_writes (meta : ModelMeta)
    (s : DiffableState) (now : Value)
    (hauto : meta.autoNow = []) (hn : s.hasChanged = false) :
    (save meta true s now).1 = 0 := by
  rw [save_fst_of_flag_on, hauto]
  simp only [List.foldl_nil]
  rw [List.countP_eq_zero]
  intro t ht
  rw [tableHasChange_iff]
  rintro ⟨n, -, hmem⟩
  rw [DiffableState.mem_changedFields] at hmem
  obtain ⟨f, hf, -, hc⟩ := hmem
  rw [DiffableState.hasChanged_false_iff] at hn
  rw [hn f hf] at hc
  cases hc

/-- Claim C1 witness: the unmodified Author instance (its model has no
auto-updated field) saves with zero writes. -/
theorem diffable_c1_witness :
    authorMeta.autoNow = [] ∧ authorLoaded.hasChanged = false ∧
      (save authorMeta true authorLoaded 99).1 = 0 :=
  ⟨rfl, by decide,
    diffable_c1_amended_no_auto_now_zero_writes authorMeta authorLoaded 99 rfl (by decide)⟩

/-- Claim C5: deep copy always succeeds, regardless of the original's
pending changes: the copy has a fresh identity distinct from the original's,
registered in the Lock Registry, the same field names and current field
values as the original, and an empty diff (its snapshot is reset to its own
copied field values). -/
theorem diffable_c5_deepcopy (w : World) (i : ModelInstance) (h : i.id < w.nextId) :
    (deepcopy w i).1.id ≠ i.id ∧
      (deepcopy w i).1.st.fields.map FieldState.name = i.st.fields.map FieldState.name ∧
      (deepcopy w i).1.st.fields.map FieldState.current
        = i.st.fields.map FieldState.current ∧
      (deepcopy w i).1.st.diff = [] ∧
      ((deepcopy w i).2.locks.any (fun p => p.1 == (deepcopy w i).1.id)) = true := by
  refine ⟨Ne.symm (Nat.ne_of_lt h), ?_, ?_, DiffableState.diff_resetSnapshot i.st, ?_⟩
  · simp only [deepcopy, createInstance, DiffableState.resetSnapshot, List.map_map]
    exact List.map_congr_left (fun f _ => FieldState.name_reset f)
  · simp only [deepcopy, createInstance, DiffableState.resetSnapshot, List.map_map]
    exact List.map_congr_left (fun f _ => FieldState.current_reset f)
  · simp [deepcopy, createInstance]

/-- Claim C5 witness: deep-copying a changed Book instance in a world with
one registered identity. -/
theorem diffable_c5_witness :
    (0 : Nat) < 1 ∧
      ((deepcopy ⟨1, [(0, false)]⟩ ⟨0, bookChangedTitle⟩).1.id ≠ 0 ∧
        (deepcopy ⟨1, [(0, false)]⟩ ⟨0, bookChangedTitle⟩).1.st.fields.map FieldState.name
          = bookChangedTitle.fields.map FieldState.name ∧
        (deepcopy ⟨1, [(0, false)]⟩ ⟨0, bookChangedTitle⟩).1.st.fields.map FieldState.current
          = bookChangedTitle.fields.map FieldState.current ∧
        (deepcopy ⟨1, [(0, false)]⟩ ⟨0, bookChangedTitle⟩).1.st.diff = [] ∧
        ((deepcopy ⟨1, [(0, false)]⟩ ⟨0, bookChangedTitle⟩).2.locks.any
            (fun p => p.1 == (deepcopy ⟨1, [(0, false)]⟩ ⟨0, bookChangedTitle⟩).1.id))
          = true) :=
  ⟨by decide, diffable_c5_deepcopy ⟨1, [(0, false)]⟩ ⟨0, bookChangedTitle⟩ (by decide)⟩

/-- Claim C6: serializing an instance with pending changes to a byte stream
and deserializing it back restores the tracker state exactly: the
deserialized instance's diff equals the original's, it still reports pending
changes, and subsequent field mutations are tracked identically to the
original against the restored snapshot. -/
theorem diffable_c6_pickle_preserves_diff (s : DiffableState) (h : s.hasChanged = true) :
    ∃ s2, pickleLoads (pickleDumps s) = some s2 ∧ s2.diff = s.diff ∧
      s2.hasChanged = true ∧
      ∀ n v, (s2.setField n v).diff = (s.setField n v).diff :=
  ⟨s, pickle_roundtrip s, rfl, h, fun _ _ => rfl⟩

/-- Claim C6 witness: the pickle round trip on a Book whose title was
changed, as in `test_pickling_and_unpickling__pickle`. -/
theorem diffable_c6_witness :
    bookChangedTitle.hasChanged = true ∧
      ∃ s2, pickleLoads (pickleDumps bookChangedTitle) = some s2 ∧
        s2.diff = bookChangedTitle.diff ∧ s2.hasChanged = true ∧
        ∀ n v, (s2.setField n v).diff = (bookChangedTitle.setField n v).diff :=
  ⟨by decide, diffable_c6_pickle_preserves_diff bookChangedTitle (by decide)⟩

/-- Claim C7 counterexample: the claim fails as stated — for a
multi-table-inherited model with no auto-updated field on the parent table,
an instance with only the child-table field changed saves with exactly one
write (the parent table has no changed column and is skipped), not two. -/
theorem diffable_c7_counterexample :
    plainMtiChildChanged.changedFields = ["age"] ∧
      (save plainMtiMeta true plainMtiChildChanged 99).1 = 1 ∧
      (save plainMtiMeta true plainMtiChildChanged 99).1 ≠ 2 := by
  decide

/-- Claim C7 (amended): for a multi-table-inherited instance in which a
child-table field has been changed since load, saving with the flag enabled
issues one write per table level with a changed column — hence exactly two
writes (one per table level) when the parent table additionally carries an
auto-updated timestamp field present on the instance whose snapshot differs
from the save-time value, as in the test model `OldBook`. -/
theorem diffable_c7_amended_two_writes (meta : ModelMeta) (s : DiffableState)
    (pt ct : List FieldName) (a child : FieldName) (now : Value)
    (htables : meta.tables = [pt, ct])
    (hauto : meta.autoNow = [a])
    (hpa : a ∈ pt)
    (hsnap : ∀ f ∈ s.fields, f.name = a → f.snap ≠ SnapVal.loaded now)
    (hex : ∃ f ∈ s.fields, f.name = a)
    (hchild : child ∈ ct)
    (hchanged : child ∈ s.changedFields)
    (hca : child ≠ a) :
    (save meta true s now).1 = 2 := by
  rw [save_fst_of_flag_on, hauto]
  simp only [List.foldl_cons, List.foldl_nil]
  rw [htables]
  have hpt : tableHasChange (s.setField a now) pt = true := by
    rw [tableHasChange_iff]
    refine ⟨a, hpa, ?_⟩
    rw [DiffableState.mem_changedFields_setField]
    obtain ⟨f, hf, hfa⟩ := hex
    exact Or.inl ⟨rfl, f, hf, hfa, hsnap f hf hfa⟩
  have hct : tableHasChange (s.setField a now) ct = true := by
    rw [tableHasChange_iff]
    refine ⟨child, hchild, ?_⟩
    rw [DiffableState.mem_changedFields_setField]
    exact Or.inr ⟨hca, hchanged⟩
  simp [List.countP_cons, hpt, hct]

/-- Claim C7 witness: the `OldBook` instance with its child-table field
`age` modified, as in
`test_saving__changed_model_with_auto_now_in_table_inheritance__save_only_changes_on`:
exactly two writes. -/
theorem diffable_c7_witness :
    ((∀ f ∈ (oldBookLoaded.setField "age" 25).fields, f.name = "updated_at" →
        f.snap ≠ SnapVal.loaded 99) ∧
      (∃ f ∈ (oldBookLoaded.setField "age" 25).fields, f.name = "updated_at") ∧
      "age" ∈ (oldBookLoaded.setField "age" 25).changedFields) ∧
      (save oldBookMeta true (oldBookLoaded.setField "age" 25) 99).1 = 2 :=
  ⟨⟨by decide, by decide, by decide⟩,
    diffable_c7_amended_two_writes oldBookMeta (oldBookLoaded.setField "age" 25)
      ["id", "title", "author", "publication_date", "created_at", "updated_at"] ["age"]
      "updated_at" "age" 99 rfl rfl (by decide) (by decide) (by decide) (by decide)
      (by decide) (by decide)⟩

/-- Claim C10: for an instance of a model declaring an auto-updated
(`auto_now`) timestamp field, saving with the flag enabled and no field
explicitly mutated since load issues exactly one write — the table carrying
the timestamp — and updates the timestamp; in particular a
multi-table-inherited such instance issues one write, not zero or two. -/
theorem diffable_c10_auto_now_single_write (meta : ModelMeta) (s : DiffableState)
    (a : FieldName) (now : Value)
    (hauto : meta.autoNow = [a])
    (hn : s.hasChanged = false)
    (hsnap : ∀ f ∈ s.fields, f.name = a → f.snap ≠ SnapVal.loaded now)
    (hex : ∃ f ∈ s.fields, f.name = a)
    (ht : meta.tables.countP (fun t => decide (a ∈ t)) = 1) :
    (save meta true s now).1 = 1 ∧
      ∀ f1 ∈ (save meta true s now).2.fields, f1.name = a → f1.current = some now := by
  have hn2 := (DiffableState.hasChanged_false_iff s).mp hn
  have hmem : ∀ x, x ∈ (s.setField a now).changedFields ↔ x = a := by
    intro x
    rw [DiffableState.mem_changedFields_setField]
    constructor
    · rintro (⟨h1, -⟩ | ⟨-, h2⟩)
      · exact h1
      · exfalso
        rw [DiffableState.mem_changedFields] at h2
        obtain ⟨f, hf, -, hc⟩ := h2
        rw [hn2 f hf] at hc
        cases hc
    · rintro rfl
      obtain ⟨f, hf, hfa⟩ := hex
      exact Or.inl ⟨rfl, f, hf, hfa, hsnap f hf hfa⟩
  constructor
  · rw [save_fst_of_flag_on, hauto]
    simp only [List.foldl_cons, List.foldl_nil]
    have hcount : meta.tables.countP (fun t => tableHasChange (s.setField a now) t)
        = meta.tables.countP (fun t => decide (a ∈ t)) := by
      refine List.countP_congr ?_
      intro t _
      simp only [tableHasChange_iff, decide_eq_true_eq]
      constructor
      · rintro ⟨n, hnt, hmem2⟩
        rwa [(hmem n).mp hmem2] at hnt
      · intro hat
        exact ⟨a, hat, (hmem a).mpr rfl⟩
    rw [hcount]
    exact ht
  · intro f1 hf1 hname
    rw [save_snd, hauto] at hf1
    simp only [List.foldl_cons, List.foldl_nil, DiffableState.resetSnapshot,
      List.mem_map] at hf1
    obtain ⟨f2, hf2, rfl⟩ := hf1
    obtain ⟨f, hf, rfl⟩ := DiffableState.mem_fields_setField s a now f2 hf2
    by_cases h : f.name = a
    · rw [if_pos h]
      rfl
    · rw [if_neg h, FieldState.name_reset] at hname
      exact absurd hname h

/-- Claim C10 witness: the unmodified multi-table `OldBook` instance saved
at a later time issues exactly one write, carried by the parent table whose
`updated_at` field gets the new timestamp. -/
theorem diffable_c10_witness :
    (oldBookLoaded.hasChanged = false ∧
      (∀ f ∈ oldBookLoaded.fields, f.name = "updated_at" →
        f.snap ≠ SnapVal.loaded 99) ∧
      (∃ f ∈ oldBookLoaded.fields, f.name = "updated_at") ∧
      oldBookMeta.tables.countP (fun t => decide ("updated_at" ∈ t)) = 1) ∧
      ((save oldBookMeta true oldBookLoaded 99).1 = 1 ∧
        ∀ f1 ∈ (save oldBookMeta true oldBookLoaded 99).2.fields,
          f1.name = "updated_at" → f1.current = some 99) :=
  ⟨⟨by decide, by decide, by decide, by decide⟩,
    diffable_c10_auto_now_single_write oldBookMeta oldBookLoaded "updated_at" 99 rfl
      (by decide) (by decide) (by decide) (by decide)⟩

end Diffable
